import Mathlib

/-!
Shallow embedding of the minimal virtual-DOM library
(`src/self_virtual_dom.rs`): the tree data model, the two recursive diff
passes, the HTML renderer, and the response assembly of `update_dom`.

Rust `HashMap<String, String>` attributes are embedded as association
lists `List (String × String)` in stored (iteration) order. The
embedding's `=` on `ElementType` is therefore order-sensitive, while the
Rust derived `PartialEq` compares the attribute map as an unordered
key-value set; that coarser program-level equality is embedded separately
as `ElementType.rust_structural_eq` and used where the distinction
matters (render determinism). The two notions coincide on trees whose
Elements store at most one attribute, which covers every tree this
repository constructs.
-/

/-- Embeds Rust `enum ElementType { Text(String), Element(String, HashMap<String,String>, Vec<ElementType>) }`. -/
inductive ElementType where
  | Text (s : String)
  | Element (tag : String) (attrs : List (String × String)) (children : List ElementType)

mutual
def ElementType.decEq : (a b : ElementType) → Decidable (a = b)
  | .Text s, .Text t =>
    if h : s = t then isTrue (by rw [h]) else isFalse (by simp [h])
  | .Text _, .Element _ _ _ => isFalse (by intro h; exact ElementType.noConfusion h)
  | .Element _ _ _, .Text _ => isFalse (by intro h; exact ElementType.noConfusion h)
  | .Element t1 a1 c1, .Element t2 a2 c2 =>
    if h1 : t1 = t2 then
      if h2 : a1 = a2 then
        match ElementType.decEqList c1 c2 with
        | isTrue h3 => isTrue (by rw [h1, h2, h3])
        | isFalse h3 => isFalse (by simp [h3])
      else isFalse (by simp [h2])
    else isFalse (by simp [h1])

def ElementType.decEqList : (as bs : List ElementType) → Decidable (as = bs)
  | [], [] => isTrue rfl
  | _ :: _, [] => isFalse (by intro h; exact List.noConfusion h)
  | [], _ :: _ => isFalse (by intro h; exact List.noConfusion h)
  | a :: as, b :: bs =>
    match ElementType.decEq a b, ElementType.decEqList as bs with
    | isTrue h1, isTrue h2 => isTrue (by rw [h1, h2])
    | isFalse h1, _ => isFalse (by simp [h1])
    | _, isFalse h2 => isFalse (by simp [h2])
end

instance : DecidableEq ElementType := ElementType.decEq

/-- Embeds Rust `struct VirtualNode { element_type: ElementType }`. -/
structure VirtualNode where
  element_type : ElementType
deriving DecidableEq

/-- Embeds `ElementType::is_empty_text_node`: true iff the node is a `Text` variant with empty content. -/
def ElementType.is_empty_text_node : ElementType → Bool
  | .Text text => text.isEmpty
  | _ => false

/-- Embeds Rust `enum Diff { AddNode(VirtualNode), RemoveNode(VirtualNode) }`. -/
inductive Diff where
  | AddNode (n : VirtualNode)
  | RemoveNode (n : VirtualNode)
deriving DecidableEq

/-- Embeds the hand-written `impl PartialEq for Diff`: same-variant payload
equality, cross-variant always false. -/
def Diff.rust_eq : Diff → Diff → Bool
  | .AddNode node1, .AddNode node2 => decide (node1 = node2)
  | .RemoveNode node1, .RemoveNode node2 => decide (node1 = node2)
  | _, _ => false

mutual
/-- Embeds `find_added_nodes_recursive`: at an unequal position push `new`
unless it is an empty text node and do not descend; at an equal `Element`
position recurse pairwise into the zipped children. -/
def find_added_nodes_recursive (old new : ElementType) : List VirtualNode :=
  if old ≠ new then
    if new.is_empty_text_node then [] else [⟨new⟩]
  else
    match old, new with
    | .Element _ _ old_children, .Element _ _ new_children =>
        added_children_walk old_children new_children
    | _, _ => []
termination_by structural old

/-- Pairwise walk over zipped child lists for the addition pass; embeds the
`old_children.iter().zip(new_children.iter())` loop, stopping at the shorter list. -/
def added_children_walk (olds news : List ElementType) : List VirtualNode :=
  match olds, news with
  | o :: os, n :: ns => find_added_nodes_recursive o n ++ added_children_walk os ns
  | _, _ => []
termination_by structural olds
end

mutual
/-- Embeds `find_removed_nodes_recursive`: at an unequal position push `old`
unless it is an empty text node and do not descend; at an equal `Element`
position recurse pairwise into the zipped children. -/
def find_removed_nodes_recursive (old new : ElementType) : List VirtualNode :=
  if old ≠ new then
    if old.is_empty_text_node then [] else [⟨old⟩]
  else
    match old, new with
    | .Element _ _ old_children, .Element _ _ new_children =>
        removed_children_walk old_children new_children
    | _, _ => []
termination_by structural old

/-- Pairwise walk over zipped child lists for the removal pass. -/
def removed_children_walk (olds news : List ElementType) : List VirtualNode :=
  match olds, news with
  | o :: os, n :: ns => find_removed_nodes_recursive o n ++ removed_children_walk os ns
  | _, _ => []
termination_by structural olds
end

/-- Embeds `find_added_nodes`. -/
def find_added_nodes (old new : VirtualNode) : List VirtualNode :=
  find_added_nodes_recursive old.element_type new.element_type

/-- Embeds `find_removed_nodes`. -/
def find_removed_nodes (old new : VirtualNode) : List VirtualNode :=
  find_removed_nodes_recursive old.element_type new.element_type

mutual
/-- Embeds `virtual_dom_to_html`: a `Text` node renders as its content; an
`Element` renders as an opening tag with a space, the attributes joined by
single spaces, the concatenated children, and a closing tag. -/
def virtual_dom_to_html : ElementType → String
  | .Text text => text
  | .Element tag attrs children =>
      let attrs_str := String.intercalate " "
        (attrs.map fun kv => kv.1 ++ "=\"" ++ kv.2 ++ "\"")
      "<" ++ tag ++ " " ++ attrs_str ++ ">" ++ children_to_html children ++ "</" ++ tag ++ ">"
termination_by structural node => node

/-- Concatenation of the renderings of a child list; embeds the
`children.iter().map(virtual_dom_to_html).collect().join("")` expression. -/
def children_to_html : List ElementType → String
  | [] => ""
  | c :: cs => virtual_dom_to_html c ++ children_to_html cs
termination_by structural cs => cs
end

/-- Embeds Rust `struct AppResponse { diff: Vec<Diff>, html: String }`. -/
structure AppResponse where
  diff : List Diff
  html : String
deriving DecidableEq

/-- Embeds `update_dom`: all removals (wrapped in `RemoveNode`) pushed first,
then all additions (wrapped in `AddNode`), paired with the rendering of the
new tree. The `println!` logging loop has no effect on the returned value. -/
def update_dom (old new : VirtualNode) : AppResponse :=
  { diff := (find_removed_nodes old new).map Diff.RemoveNode
      ++ (find_added_nodes old new).map Diff.AddNode
    html := virtual_dom_to_html new.element_type }

/-- Payload of an `AddNode` change, if any. -/
def Diff.addedPayload : Diff → Option VirtualNode
  | .AddNode n => some n
  | .RemoveNode _ => none

/-- Payload of a `RemoveNode` change, if any. -/
def Diff.removedPayload : Diff → Option VirtualNode
  | .RemoveNode n => some n
  | .AddNode _ => none

/-- One attribute rendered following the spec wording: `name="value"`. -/
def render_attr_spec (kv : String × String) : String := kv.1 ++ "=\"" ++ kv.2 ++ "\""

/-- Renderer restated from the spec's wording (section 4.3): a Text node is
its literal content; an Element is `<tag attrs>children</tag>` with the
attributes joined by a single space in stored order, the children's
renderings concatenated with no separator, and a space before `>` even with
zero attributes. Used only to compare against `virtual_dom_to_html`. -/
def render_spec (node : ElementType) : String :=
  match node with
  | .Text text => text
  | .Element tag attrs children =>
      "<" ++ tag ++ " " ++ String.intercalate " " (attrs.map render_attr_spec) ++ ">"
        ++ (children.attach.map fun c => render_spec c.1).foldr (· ++ ·) ""
        ++ "</" ++ tag ++ ">"
termination_by sizeOf node
decreasing_by
  have := List.sizeOf_lt_of_mem c.2
  simp only [ElementType.Element.sizeOf_spec]
  omega

mutual
/-- Fuel bound of a tree: enough recursion depth for the fueled variants of
the diff passes and the renderer to run to completion. -/
def ElementType.fuel_bound : ElementType → Nat
  | .Text _ => 1
  | .Element _ _ children => 1 + ElementType.fuel_bound_list children
termination_by structural node => node

/-- Fuel bound of a child list. -/
def ElementType.fuel_bound_list : List ElementType → Nat
  | [] => 1
  | c :: cs => 1 + max (ElementType.fuel_bound c) (ElementType.fuel_bound_list cs)
termination_by structural cs => cs
end

mutual
/-- Fueled variant of `virtual_dom_to_html`: runs out of fuel at 0,
otherwise performs exactly one step of the recursion with one unit of fuel
consumed on every recursive call. Models the claim that every call
terminates within a bound given by the input tree. -/
def virtual_dom_to_html_fueled : Nat → ElementType → Option String
  | 0, _ => none
  | _ + 1, .Text text => some text
  | fuel + 1, .Element tag attrs children =>
      (children_to_html_fueled fuel children).map fun children_str =>
        "<" ++ tag ++ " "
          ++ String.intercalate " " (attrs.map fun kv => kv.1 ++ "=\"" ++ kv.2 ++ "\"")
          ++ ">" ++ children_str ++ "</" ++ tag ++ ">"
termination_by structural fuel _ => fuel

/-- Fueled variant of `children_to_html`. -/
def children_to_html_fueled : Nat → List ElementType → Option String
  | 0, _ => none
  | _ + 1, [] => some ""
  | fuel + 1, c :: cs =>
      match virtual_dom_to_html_fueled fuel c, children_to_html_fueled fuel cs with
      | some s, some t => some (s ++ t)
      | _, _ => none
termination_by structural fuel _ => fuel
end

mutual
/-- Fueled variant of `find_removed_nodes_recursive`. -/
def find_removed_nodes_recursive_fueled : Nat → ElementType → ElementType → Option (List VirtualNode)
  | 0, _, _ => none
  | fuel + 1, old, new =>
    if old ≠ new then
      some (if old.is_empty_text_node then [] else [⟨old⟩])
    else
      match old, new with
      | .Element _ _ old_children, .Element _ _ new_children =>
          removed_children_walk_fueled fuel old_children new_children
      | _, _ => some []
termination_by structural fuel _ _ => fuel

/-- Fueled variant of `removed_children_walk`. -/
def removed_children_walk_fueled : Nat → List ElementType → List ElementType → Option (List VirtualNode)
  | 0, _, _ => none
  | fuel + 1, o :: os, n :: ns =>
      match find_removed_nodes_recursive_fueled fuel o n, removed_children_walk_fueled fuel os ns with
      | some a, some b => some (a ++ b)
      | _, _ => none
  | _ + 1, _, _ => some []
termination_by structural fuel _ _ => fuel
end

mutual
/-- Fueled variant of `find_added_nodes_recursive`. -/
def find_added_nodes_recursive_fueled : Nat → ElementType → ElementType → Option (List VirtualNode)
  | 0, _, _ => none
  | fuel + 1, old, new =>
    if old ≠ new then
      some (if new.is_empty_text_node then [] else [⟨new⟩])
    else
      match old, new with
      | .Element _ _ old_children, .Element _ _ new_children =>
          added_children_walk_fueled fuel old_children new_children
      | _, _ => some []
termination_by structural fuel _ _ => fuel

/-- Fueled variant of `added_children_walk`. -/
def added_children_walk_fueled : Nat → List ElementType → List ElementType → Option (List VirtualNode)
  | 0, _, _ => none
  | fuel + 1, o :: os, n :: ns =>
      match find_added_nodes_recursive_fueled fuel o n, added_children_walk_fueled fuel os ns with
      | some a, some b => some (a ++ b)
      | _, _ => none
  | _ + 1, _, _ => some []
termination_by structural fuel _ _ => fuel
end

/-- Fueled variant of `update_dom`: assembles the response from the fueled
passes, failing if any of them runs out of fuel. -/
def update_dom_fueled (fuel : Nat) (old new : VirtualNode) : Option AppResponse :=
  match find_removed_nodes_recursive_fueled fuel old.element_type new.element_type,
        find_added_nodes_recursive_fueled fuel old.element_type new.element_type,
        virtual_dom_to_html_fueled fuel new.element_type with
  | some removed, some added, some rendered =>
      some { diff := removed.map Diff.RemoveNode ++ added.map Diff.AddNode
             html := rendered }
  | _, _, _ => none

/-- Embeds the Rust derived `PartialEq` for `HashMap<String, String>`:
two maps are equal iff they hold the same number of entries and every
key-value pair of the left map is found in the right map. The stored
order of the entries is irrelevant. -/
def attrs_rust_eq (a b : List (String × String)) : Bool :=
  a.length == b.length &&
    a.all fun kv =>
      match b.lookup kv.1 with
      | some v => v == kv.2
      | none => false

mutual
/-- Embeds the Rust derived `PartialEq` for `ElementType`: variant, text,
tag and children compare structurally, while the attribute map compares
as an unordered key-value set (`attrs_rust_eq`). This is the program's
own equality; it is coarser than the embedding's order-sensitive `=`. -/
def ElementType.rust_structural_eq : ElementType → ElementType → Bool
  | .Text s, .Text t => s == t
  | .Text _, .Element _ _ _ => false
  | .Element _ _ _, .Text _ => false
  | .Element t1 a1 c1, .Element t2 a2 c2 =>
      t1 == t2 && attrs_rust_eq a1 a2 && ElementType.rust_structural_eq_list c1 c2
termination_by structural a _ => a

/-- Pointwise `rust_structural_eq` on child lists (Rust `Vec` equality). -/
def ElementType.rust_structural_eq_list : List ElementType → List ElementType → Bool
  | [], [] => true
  | _ :: _, [] => false
  | [], _ :: _ => false
  | c :: cs, d :: ds =>
      ElementType.rust_structural_eq c d && ElementType.rust_structural_eq_list cs ds
termination_by structural a _ => a
end

mutual
/-- Restriction under which the unordered attribute map determines the
stored attribute list: every `Element` of the tree stores at most one
attribute. Every tree constructed by this repository satisfies it. -/
def ElementType.at_most_one_attr : ElementType → Bool
  | .Text _ => true
  | .Element _ attrs children =>
      decide (attrs.length ≤ 1) && ElementType.at_most_one_attr_list children
termination_by structural node => node

/-- `at_most_one_attr` for every member of a child list. -/
def ElementType.at_most_one_attr_list : List ElementType → Bool
  | [] => true
  | c :: cs => ElementType.at_most_one_attr c && ElementType.at_most_one_attr_list cs
termination_by structural cs => cs
end

/-- Structural induction principle for `ElementType` giving the inductive
hypothesis for every member of an `Element`'s child list. -/
theorem ElementType.ind_mem (P : ElementType → Prop)
    (ht : ∀ s, P (ElementType.Text s))
    (he : ∀ tag attrs children, (∀ c ∈ children, P c) → P (ElementType.Element tag attrs children)) :
    ∀ x, P x :=
  fun x =>
    @ElementType.rec P (fun cs => ∀ c ∈ cs, P c)
      ht
      (fun tag attrs children ih => he tag attrs children ih)
      (fun c hc => absurd hc (List.not_mem_nil c))
      (fun head tail hh htl c hc => by
        rcases List.mem_cons.mp hc with h | h
        · rw [h]; exact hh
        · exact htl c h)
      x

/-- The removal pass over a tree and itself reports nothing: the pairwise
child walk of identical lists. -/
theorem removed_children_walk_self (cs : List ElementType)
    (h : ∀ c ∈ cs, find_removed_nodes_recursive c c = []) :
    removed_children_walk cs cs = [] := by
  induction cs with
  | nil => rfl
  | cons c cs ih =>
      rw [removed_children_walk, h c (by simp), ih (fun x hx => h x (by simp [hx]))]
      rfl

/-- The removal pass over a tree and itself reports nothing. -/
theorem removed_rec_self : ∀ x, find_removed_nodes_recursive x x = [] := by
  intro x
  induction x using ElementType.ind_mem with
  | ht s => simp [find_removed_nodes_recursive]
  | he tag attrs children ih =>
      rw [find_removed_nodes_recursive]
      simp only [ne_eq, not_true_eq_false, if_false]
      exact removed_children_walk_self children ih

/-- Swapping the argument lists turns the addition child walk into the
removal child walk. -/
theorem added_children_walk_swap (olds news : List ElementType)
    (h : ∀ o ∈ olds, ∀ n, find_added_nodes_recursive o n = find_removed_nodes_recursive n o) :
    added_children_walk olds news = removed_children_walk news olds := by
  induction olds generalizing news with
  | nil => cases news <;> rfl
  | cons o os ih =>
      cases news with
      | nil => rfl
      | cons n ns =>
          rw [added_children_walk, removed_children_walk,
            h o (by simp) n, ih ns (fun x hx m => h x (by simp [hx]) m)]

/-- The addition pass with arguments `(old, new)` equals the removal pass
with arguments `(new, old)`. -/
theorem added_rec_swap : ∀ old new : ElementType,
    find_added_nodes_recursive old new = find_removed_nodes_recursive new old := by
  intro old
  induction old using ElementType.ind_mem with
  | ht s =>
      intro new
      by_cases h : ElementType.Text s = new
      · subst h
        rw [find_added_nodes_recursive.eq_def, find_removed_nodes_recursive.eq_def,
          if_neg (not_not_intro rfl)]
      · rw [find_added_nodes_recursive.eq_def, find_removed_nodes_recursive.eq_def,
          if_pos h, if_pos (Ne.symm h)]
  | he tag attrs children ih =>
      intro new
      by_cases h : ElementType.Element tag attrs children = new
      · subst h
        rw [find_added_nodes_recursive.eq_def, find_removed_nodes_recursive.eq_def,
          if_neg (not_not_intro rfl), if_neg (not_not_intro rfl)]
        show added_children_walk children children = removed_children_walk children children
        exact added_children_walk_swap children children (fun o ho n => ih o ho n)
      · rw [find_added_nodes_recursive.eq_def, find_removed_nodes_recursive.eq_def,
          if_pos h, if_pos (Ne.symm h)]

/-- The addition pass over a tree and itself reports nothing. -/
theorem added_rec_self : ∀ x, find_added_nodes_recursive x x = [] := by
  intro x
  rw [added_rec_swap]
  exact removed_rec_self x

/-- Every node reported by the removal pass is a non-empty-text node. -/
theorem mem_removed_rec_not_empty : ∀ (old new : ElementType) (v : VirtualNode),
    v ∈ find_removed_nodes_recursive old new → v.element_type.is_empty_text_node = false := by
  intro old new v hv
  by_cases h : old = new
  · subst h
    rw [removed_rec_self] at hv
    exact absurd hv (List.not_mem_nil v)
  · rw [find_removed_nodes_recursive.eq_def, if_pos h] at hv
    by_cases he : old.is_empty_text_node
    · rw [if_pos he] at hv
      exact absurd hv (List.not_mem_nil v)
    · rw [if_neg he] at hv
      have hveq : v = ⟨old⟩ := by simpa using hv
      subst hveq
      simpa using he

/-- Every node reported by the addition pass is a non-empty-text node. -/
theorem mem_added_rec_not_empty : ∀ (old new : ElementType) (v : VirtualNode),
    v ∈ find_added_nodes_recursive old new → v.element_type.is_empty_text_node = false := by
  intro old new v hv
  rw [added_rec_swap] at hv
  exact mem_removed_rec_not_empty new old v hv

/-- Every fuel bound is positive. -/
theorem fuel_bound_pos : ∀ node : ElementType, 1 ≤ node.fuel_bound := by
  intro node
  cases node with
  | Text s => simp [ElementType.fuel_bound]
  | Element tag attrs children =>
      rw [ElementType.fuel_bound]
      omega

/-- Every child-list fuel bound is positive. -/
theorem fuel_bound_list_pos : ∀ cs : List ElementType, 1 ≤ ElementType.fuel_bound_list cs := by
  intro cs
  cases cs with
  | nil => simp [ElementType.fuel_bound_list]
  | cons c cs =>
      rw [ElementType.fuel_bound_list]
      omega

/-- With fuel at least the tree's fuel bound, the fueled renderer succeeds
and agrees with `virtual_dom_to_html`. -/
theorem html_fueled_spec : ∀ fuel : Nat,
    (∀ node : ElementType, node.fuel_bound ≤ fuel →
      virtual_dom_to_html_fueled fuel node = some (virtual_dom_to_html node)) ∧
    (∀ cs : List ElementType, ElementType.fuel_bound_list cs ≤ fuel →
      children_to_html_fueled fuel cs = some (children_to_html cs)) := by
  intro fuel
  induction fuel with
  | zero =>
      constructor
      · intro node h
        exact absurd h (by have := fuel_bound_pos node; omega)
      · intro cs h
        exact absurd h (by have := fuel_bound_list_pos cs; omega)
  | succ k ih =>
      constructor
      · intro node h
        cases node with
        | Text s => rfl
        | Element tag attrs children =>
            rw [ElementType.fuel_bound] at h
            rw [virtual_dom_to_html_fueled, ih.2 children (by omega)]
            rfl
      · intro cs h
        cases cs with
        | nil => rfl
        | cons c cs' =>
            rw [ElementType.fuel_bound_list] at h
            have hc : ElementType.fuel_bound c ≤ k := by omega
            have hcs : ElementType.fuel_bound_list cs' ≤ k := by omega
            rw [children_to_html_fueled, ih.1 c hc, ih.2 cs' hcs]
            rfl

/-- Step equation of the fueled removal pass at positive fuel. -/
theorem removed_fueled_succ (fuel : Nat) (old new : ElementType) :
    find_removed_nodes_recursive_fueled (fuel + 1) old new =
      (if old ≠ new then
        some (if old.is_empty_text_node then [] else [⟨old⟩])
      else
        match old, new with
        | .Element _ _ old_children, .Element _ _ new_children =>
            removed_children_walk_fueled fuel old_children new_children
        | _, _ => some []) := rfl

/-- Step equation of the fueled addition pass at positive fuel. -/
theorem added_fueled_succ (fuel : Nat) (old new : ElementType) :
    find_added_nodes_recursive_fueled (fuel + 1) old new =
      (if old ≠ new then
        some (if new.is_empty_text_node then [] else [⟨new⟩])
      else
        match old, new with
        | .Element _ _ old_children, .Element _ _ new_children =>
            added_children_walk_fueled fuel old_children new_children
        | _, _ => some []) := rfl

/-- With fuel at least the old tree's fuel bound, the fueled removal pass
succeeds and agrees with `find_removed_nodes_recursive`. -/
theorem removed_fueled_spec : ∀ fuel : Nat,
    (∀ old new : ElementType, old.fuel_bound ≤ fuel →
      find_removed_nodes_recursive_fueled fuel old new =
        some (find_removed_nodes_recursive old new)) ∧
    (∀ olds news : List ElementType, ElementType.fuel_bound_list olds ≤ fuel →
      removed_children_walk_fueled fuel olds news =
        some (removed_children_walk olds news)) := by
  intro fuel
  induction fuel with
  | zero =>
      constructor
      · intro old new h
        exact absurd h (by have := fuel_bound_pos old; omega)
      · intro olds news h
        exact absurd h (by have := fuel_bound_list_pos olds; omega)
  | succ k ih =>
      constructor
      · intro old new h
        by_cases heq : old = new
        · subst heq
          rw [removed_fueled_succ, if_neg (not_not_intro rfl),
            find_removed_nodes_recursive.eq_def, if_neg (not_not_intro rfl)]
          cases old with
          | Text s => rfl
          | Element tag attrs children =>
              rw [ElementType.fuel_bound] at h
              exact ih.2 children children (by omega)
        · rw [removed_fueled_succ, if_pos heq,
            find_removed_nodes_recursive.eq_def, if_pos heq]
      · intro olds news h
        cases olds with
        | nil => cases news <;> rfl
        | cons o os =>
            cases news with
            | nil => rfl
            | cons n ns =>
                rw [ElementType.fuel_bound_list] at h
                rw [removed_children_walk_fueled, removed_children_walk,
                  ih.1 o n (by omega), ih.2 os ns (by omega)]

/-- With fuel at least the old tree's fuel bound, the fueled addition pass
succeeds and agrees with `find_added_nodes_recursive`. -/
theorem added_fueled_spec : ∀ fuel : Nat,
    (∀ old new : ElementType, old.fuel_bound ≤ fuel →
      find_added_nodes_recursive_fueled fuel old new =
        some (find_added_nodes_recursive old new)) ∧
    (∀ olds news : List ElementType, ElementType.fuel_bound_list olds ≤ fuel →
      added_children_walk_fueled fuel olds news =
        some (added_children_walk olds news)) := by
  intro fuel
  induction fuel with
  | zero =>
      constructor
      · intro old new h
        exact absurd h (by have := fuel_bound_pos old; omega)
      · intro olds news h
        exact absurd h (by have := fuel_bound_list_pos olds; omega)
  | succ k ih =>
      constructor
      · intro old new h
        by_cases heq : old = new
        · subst heq
          rw [added_fueled_succ, if_neg (not_not_intro rfl),
            find_added_nodes_recursive.eq_def, if_neg (not_not_intro rfl)]
          cases old with
          | Text s => rfl
          | Element tag attrs children =>
              rw [ElementType.fuel_bound] at h
              exact ih.2 children children (by omega)
        · rw [added_fueled_succ, if_pos heq,
            find_added_nodes_recursive.eq_def, if_pos heq]
      · intro olds news h
        cases olds with
        | nil => cases news <;> rfl
        | cons o os =>
            cases news with
            | nil => rfl
            | cons n ns =>
                rw [ElementType.fuel_bound_list] at h
                rw [added_children_walk_fueled, added_children_walk,
                  ih.1 o n (by omega), ih.2 os ns (by omega)]

/-- The child-list rendering is the fold of the individual renderings. -/
theorem children_to_html_spec (cs : List ElementType)
    (h : ∀ c ∈ cs, virtual_dom_to_html c = render_spec c) :
    children_to_html cs = (cs.map render_spec).foldr (· ++ ·) "" := by
  induction cs with
  | nil => rfl
  | cons c cs ih =>
      rw [children_to_html, List.map_cons, List.foldr_cons, h c (by simp),
        ih (fun x hx => h x (by simp [hx]))]

/-- The renderer agrees with the renderer restated from the spec's wording. -/
theorem virtual_dom_to_html_eq_render_spec :
    ∀ node, virtual_dom_to_html node = render_spec node := by
  intro node
  induction node using ElementType.ind_mem with
  | ht s => rw [virtual_dom_to_html, render_spec]
  | he tag attrs children ih =>
      rw [virtual_dom_to_html, render_spec,
        show (children.attach.map fun c => render_spec c.1) = children.map render_spec
          from List.attach_map_val children render_spec,
        children_to_html_spec children ih]
      rfl

/-- C1: an empty-text node is never reported: every node in the output of
either pass has `is_empty_text_node = false`; moreover at an unequal
position whose `old` side is empty text the removal pass emits nothing
while the addition pass still emits the `new` side when non-empty, and
symmetrically with the roles swapped. -/
theorem empty_text_suppression :
    (∀ old new : VirtualNode, ∀ v ∈ find_removed_nodes old new,
        v.element_type.is_empty_text_node = false) ∧
    (∀ old new : VirtualNode, ∀ v ∈ find_added_nodes old new,
        v.element_type.is_empty_text_node = false) ∧
    (∀ old new : ElementType, old ≠ new → old.is_empty_text_node = true →
        find_removed_nodes_recursive old new = [] ∧
        (new.is_empty_text_node = false → find_added_nodes_recursive old new = [⟨new⟩])) ∧
    (∀ old new : ElementType, old ≠ new → new.is_empty_text_node = true →
        find_added_nodes_recursive old new = [] ∧
        (old.is_empty_text_node = false → find_removed_nodes_recursive old new = [⟨old⟩])) := by
  refine ⟨?_, ?_, ?_, ?_⟩
  · intro old new v hv
    exact mem_removed_rec_not_empty old.element_type new.element_type v hv
  · intro old new v hv
    exact mem_added_rec_not_empty old.element_type new.element_type v hv
  · intro old new hne hold
    constructor
    · rw [find_removed_nodes_recursive.eq_def, if_pos hne, hold, if_pos rfl]
    · intro hnew
      rw [find_added_nodes_recursive.eq_def, if_pos hne, hnew,
        if_neg (by decide)]
  · intro old new hne hnew
    constructor
    · rw [find_added_nodes_recursive.eq_def, if_pos hne, hnew, if_pos rfl]
    · intro hold
      rw [find_removed_nodes_recursive.eq_def, if_pos hne, hold,
        if_neg (by decide)]

/-- Witness for C1 at concrete inputs: non-empty text is reported, an
empty-text side is dropped while the other side is still reported. -/
theorem empty_text_suppression_witness :
    (VirtualNode.mk (.Text "a")).element_type.is_empty_text_node = false ∧
    (find_removed_nodes_recursive (.Text "") (.Text "x") = [] ∧
      find_added_nodes_recursive (.Text "") (.Text "x") = [⟨.Text "x"⟩]) ∧
    (find_added_nodes_recursive (.Text "x") (.Text "") = [] ∧
      find_removed_nodes_recursive (.Text "x") (.Text "") = [⟨.Text "x"⟩]) :=
  ⟨empty_text_suppression.1 ⟨.Text "a"⟩ ⟨.Text "b"⟩ ⟨.Text "a"⟩ (by decide),
   ⟨(empty_text_suppression.2.2.1 (.Text "") (.Text "x") (by decide) (by decide)).1,
    (empty_text_suppression.2.2.1 (.Text "") (.Text "x") (by decide) (by decide)).2 (by decide)⟩,
   ⟨(empty_text_suppression.2.2.2 (.Text "x") (.Text "") (by decide) (by decide)).1,
    (empty_text_suppression.2.2.2 (.Text "x") (.Text "") (by decide) (by decide)).2 (by decide)⟩⟩

/-- C2 counterexample: comparing an Element with 3 children against an
equal-prefix Element with 1 child does NOT leave the diff empty as the
claim's per-child reading implies; the code reports the whole unequal
roots (one removal and one addition), because differing child sequences
make the parents themselves unequal and no recursion into children
happens. -/
theorem positional_truncation_counterexample :
    (update_dom ⟨.Element "div" [] [.Text "a", .Text "b", .Text "c"]⟩
        ⟨.Element "div" [] [.Text "a"]⟩).diff =
      [Diff.RemoveNode ⟨.Element "div" [] [.Text "a", .Text "b", .Text "c"]⟩,
       Diff.AddNode ⟨.Element "div" [] [.Text "a"]⟩] ∧
    (update_dom ⟨.Element "div" [] [.Text "a", .Text "b", .Text "c"]⟩
        ⟨.Element "div" [] [.Text "a"]⟩).diff ≠ [] := by
  constructor <;> decide

/-- C2 amended: two Element nodes with differing child sequences (in
content or in length) are structurally unequal, so each pass emits the
whole Element on its own side and never recurses into the children; the
trailing children are never reported individually. -/
theorem unequal_elements_reported_whole :
    ∀ (t1 t2 : String) (a1 a2 : List (String × String)) (c1 c2 : List ElementType),
    ElementType.Element t1 a1 c1 ≠ ElementType.Element t2 a2 c2 →
    find_removed_nodes_recursive (.Element t1 a1 c1) (.Element t2 a2 c2) =
      [⟨.Element t1 a1 c1⟩] ∧
    find_added_nodes_recursive (.Element t1 a1 c1) (.Element t2 a2 c2) =
      [⟨.Element t2 a2 c2⟩] := by
  intro t1 t2 a1 a2 c1 c2 h
  constructor
  · rw [find_removed_nodes_recursive.eq_def, if_pos h]
    rfl
  · rw [find_added_nodes_recursive.eq_def, if_pos h]
    rfl

/-- Witness for the amended C2 at the 3-children-versus-1-child scenario. -/
theorem unequal_elements_reported_whole_witness :
    find_removed_nodes_recursive
        (.Element "div" [] [.Text "a", .Text "b", .Text "c"])
        (.Element "div" [] [.Text "a"]) =
      [⟨.Element "div" [] [.Text "a", .Text "b", .Text "c"]⟩] ∧
    find_added_nodes_recursive
        (.Element "div" [] [.Text "a", .Text "b", .Text "c"])
        (.Element "div" [] [.Text "a"]) =
      [⟨.Element "div" [] [.Text "a"]⟩] :=
  unequal_elements_reported_whole "div" "div" [] []
    [.Text "a", .Text "b", .Text "c"] [.Text "a"] (by decide)

/-- C3: in every response, every `RemoveNode` entry precedes every
`AddNode` entry: if position `i` holds an addition and position `j` holds
a removal then `j < i`. -/
theorem removals_precede_additions : ∀ (old new : VirtualNode) (i j : Nat) (x y : VirtualNode),
    (update_dom old new).diff[i]? = some (Diff.AddNode x) →
    (update_dom old new).diff[j]? = some (Diff.RemoveNode y) →
    j < i := by
  intro old new i j x y hi hj
  have hd : (update_dom old new).diff =
      (find_removed_nodes old new).map Diff.RemoveNode
        ++ (find_added_nodes old new).map Diff.AddNode := rfl
  rw [hd] at hi hj
  have hi2 : ¬ i < ((find_removed_nodes old new).map Diff.RemoveNode).length := by
    intro hlt
    rw [List.getElem?_append, if_pos hlt, List.getElem?_map] at hi
    cases hw : (find_removed_nodes old new)[i]? with
    | none => rw [hw] at hi; exact Option.noConfusion hi
    | some w => rw [hw] at hi; simp at hi
  have hj2 : j < ((find_removed_nodes old new).map Diff.RemoveNode).length := by
    by_contra hge
    push_neg at hge
    rw [List.getElem?_append_right hge, List.getElem?_map] at hj
    cases hw : (find_added_nodes old
        new)[j - ((find_removed_nodes old new).map Diff.RemoveNode).length]? with
    | none => rw [hw] at hj; exact Option.noConfusion hj
    | some w => rw [hw] at hj; simp at hj
  omega

/-- Witness for C3 at a pair of unequal text roots: the removal sits at
index 0, the addition at index 1. -/
theorem removals_precede_additions_witness : (0 : Nat) < 1 :=
  removals_precede_additions ⟨.Text "a"⟩ ⟨.Text "b"⟩ 1 0 ⟨.Text "b"⟩ ⟨.Text "a"⟩
    (by decide) (by decide)

/-- C4: comparing a snapshot against itself yields an empty change list. -/
theorem compare_self_empty : ∀ s : VirtualNode, (update_dom s s).diff = [] := by
  intro s
  show (find_removed_nodes_recursive s.element_type s.element_type).map Diff.RemoveNode
      ++ (find_added_nodes_recursive s.element_type s.element_type).map Diff.AddNode = []
  rw [removed_rec_self, added_rec_self]
  rfl

/-- C5: an Element renders as `<tag attrs>children</tag>` exactly as the
spec words it (`render_spec`), including the single space before `>` when
there are zero attributes; the concrete scenario renders to
`<div >Hello<span >World</span></div>`. -/
theorem render_element_format :
    (∀ node : ElementType, virtual_dom_to_html node = render_spec node) ∧
    virtual_dom_to_html
        (.Element "div" [] [.Text "Hello", .Element "span" [] [.Text "World"]]) =
      "<div >Hello<span >World</span></div>" := by
  constructor
  · exact virtual_dom_to_html_eq_render_spec
  · decide

/-- With at most one stored attribute on the left, the unordered Rust map
equality forces the stored attribute lists themselves to be equal. -/
theorem attrs_rust_eq_singleton (a b : List (String × String))
    (hlen : a.length ≤ 1) (h : attrs_rust_eq a b = true) : a = b := by
  rw [attrs_rust_eq, Bool.and_eq_true] at h
  obtain ⟨h1, h2⟩ := h
  have hl : a.length = b.length := by simpa using h1
  cases a with
  | nil =>
      cases b with
      | nil => rfl
      | cons kv2 bs => exact absurd hl (by simp)
  | cons kv as =>
      cases as with
      | cons kv' as' => exact absurd hlen (by simp)
      | nil =>
          obtain ⟨k, v⟩ := kv
          cases b with
          | nil => exact absurd hl (by simp)
          | cons kv2 bs =>
              cases bs with
              | cons _ _ => exact absurd hl (by simp)
              | nil =>
                  obtain ⟨k2, v2⟩ := kv2
                  rw [List.all_cons, List.all_nil, Bool.and_true] at h2
                  by_cases hk : k = k2
                  · subst hk
                    simp only [List.lookup, beq_self_eq_true] at h2
                    have : v2 = v := by simpa using h2
                    rw [this]
                  · rw [List.lookup,
                      show (((k, v).1 == k2) = false) from beq_eq_false_iff_ne.mpr hk] at h2
                    simp [List.lookup] at h2

/-- Pointwise Rust-equal child lists render to the same concatenation,
given the attribute restriction and the pointwise inductive hypothesis. -/
theorem rust_eq_children_to_html (cs : List ElementType)
    (ih : ∀ c ∈ cs, ElementType.at_most_one_attr c = true →
        ∀ d, ElementType.rust_structural_eq c d = true →
        virtual_dom_to_html c = virtual_dom_to_html d) :
    ∀ ds, ElementType.at_most_one_attr_list cs = true →
      ElementType.rust_structural_eq_list cs ds = true →
      children_to_html cs = children_to_html ds := by
  induction cs with
  | nil =>
      intro ds _ h
      cases ds with
      | nil => rfl
      | cons d ds =>
          rw [ElementType.rust_structural_eq_list] at h
          exact absurd h (by simp)
  | cons c cs ihl =>
      intro ds hwf h
      cases ds with
      | nil =>
          rw [ElementType.rust_structural_eq_list] at h
          exact absurd h (by simp)
      | cons d ds =>
          rw [ElementType.rust_structural_eq_list, Bool.and_eq_true] at h
          rw [ElementType.at_most_one_attr_list, Bool.and_eq_true] at hwf
          rw [children_to_html, children_to_html,
            ih c (by simp) hwf.1 d h.1,
            ihl (fun x hx => ih x (by simp [hx])) ds hwf.2 h.2]

/-- C6 counterexample: two trees that are structurally equal for the
program (`rust_structural_eq` compares the attribute map as an unordered
key-value set, as the Rust derived `PartialEq` does) but render to
different strings, because the renderer emits attributes in stored
(iteration) order. -/
theorem render_deterministic_counterexample :
    ElementType.rust_structural_eq
        (.Element "div" [("a", "1"), ("b", "2")] [])
        (.Element "div" [("b", "2"), ("a", "1")] []) = true ∧
    virtual_dom_to_html (.Element "div" [("a", "1"), ("b", "2")] []) ≠
      virtual_dom_to_html (.Element "div" [("b", "2"), ("a", "1")] []) := by
  constructor <;> decide

/-- C6 (amended): the renderer is a pure function of the stored tree, and
on trees whose Elements store at most one attribute — the only trees this
repository constructs, and the regime where the unordered attribute-map
equality pins down the stored attribute list — trees equal under the
program's own structural equality render to identical strings. -/
theorem render_deterministic_amended : ∀ a : ElementType,
    ElementType.at_most_one_attr a = true →
    ∀ b, ElementType.rust_structural_eq a b = true →
    virtual_dom_to_html a = virtual_dom_to_html b := by
  intro a
  induction a using ElementType.ind_mem with
  | ht s =>
      intro _ b h
      cases b with
      | Text t =>
          rw [ElementType.rust_structural_eq] at h
          have : s = t := by simpa using h
          rw [this]
      | Element t2 a2 c2 =>
          rw [ElementType.rust_structural_eq] at h
          exact absurd h (by simp)
  | he tag attrs children ih =>
      intro hwf b h
      cases b with
      | Text t =>
          rw [ElementType.rust_structural_eq] at h
          exact absurd h (by simp)
      | Element tag2 attrs2 children2 =>
          rw [ElementType.rust_structural_eq, Bool.and_eq_true, Bool.and_eq_true] at h
          obtain ⟨⟨htag, hattrs⟩, hchild⟩ := h
          rw [ElementType.at_most_one_attr, Bool.and_eq_true] at hwf
          have htag2 : tag = tag2 := by simpa using htag
          have hattrs2 : attrs = attrs2 :=
            attrs_rust_eq_singleton attrs attrs2 (by simpa using hwf.1) hattrs
          have hch : children_to_html children = children_to_html children2 :=
            rust_eq_children_to_html children ih children2 hwf.2 hchild
          rw [virtual_dom_to_html, virtual_dom_to_html, htag2, hattrs2, hch]

/-- Witness for the amended C6 at a concrete single-attribute tree. -/
theorem render_deterministic_amended_witness :
    virtual_dom_to_html (.Element "div" [("id", "x")] [.Text "hi"]) =
      virtual_dom_to_html (.Element "div" [("id", "x")] [.Text "hi"]) :=
  render_deterministic_amended (.Element "div" [("id", "x")] [.Text "hi"])
    (by decide) (.Element "div" [("id", "x")] [.Text "hi"]) (by decide)

/-- C7: for the test scenario (unequal roots), the change list is exactly
the removal of the whole old root followed by the addition of the whole
new root. -/
theorem root_level_mismatch_scenario :
    (update_dom ⟨.Element "div" [] [.Text "Hello"]⟩
        ⟨.Element "div" [] [.Text "World", .Element "span" [] [.Text "!"]]⟩).diff =
      [Diff.RemoveNode ⟨.Element "div" [] [.Text "Hello"]⟩,
       Diff.AddNode ⟨.Element "div" [] [.Text "World", .Element "span" [] [.Text "!"]]⟩] := by
  decide

/-- C8: `update_dom` and the renderer are total and terminate within a
fuel budget bounded by the input trees: with fuel at least each tree's
`fuel_bound`, the fueled variants run to completion and return exactly
the unfueled results. -/
theorem update_dom_render_total : ∀ (old new : VirtualNode) (fuel : Nat),
    old.element_type.fuel_bound ≤ fuel → new.element_type.fuel_bound ≤ fuel →
    update_dom_fueled fuel old new = some (update_dom old new) ∧
    virtual_dom_to_html_fueled fuel new.element_type =
      some (virtual_dom_to_html new.element_type) := by
  intro old new fuel h1 h2
  have hr := (removed_fueled_spec fuel).1 old.element_type new.element_type h1
  have ha := (added_fueled_spec fuel).1 old.element_type new.element_type h1
  have hh := (html_fueled_spec fuel).1 new.element_type h2
  refine ⟨?_, hh⟩
  unfold update_dom_fueled
  rw [hr, ha, hh]
  rfl

/-- Witness for C8 at two concrete text snapshots with fuel 2. -/
theorem update_dom_render_total_witness :
    update_dom_fueled 2 ⟨.Text "a"⟩ ⟨.Text "b"⟩ =
      some (update_dom ⟨.Text "a"⟩ ⟨.Text "b"⟩) ∧
    virtual_dom_to_html_fueled 2 (.Text "b") = some (virtual_dom_to_html (.Text "b")) :=
  update_dom_render_total ⟨.Text "a"⟩ ⟨.Text "b"⟩ 2 (by decide) (by decide)

/-- Filtering with a constantly-`none` function drops everything. -/
theorem filterMap_const_none {α β : Type} (l : List α) :
    l.filterMap (fun _ => (none : Option β)) = [] := by
  induction l with
  | nil => rfl
  | cons a l ih =>
      rw [List.filterMap_cons]
      exact ih

/-- C9: the two passes are each other's mirror: the addition pass on
`(old, new)` returns exactly the removal pass on `(new, old)`, and hence
the `AddNode` payloads of `update_dom old new` equal the `RemoveNode`
payloads of `update_dom new old`, in order. -/
theorem diff_passes_mirror : ∀ old new : VirtualNode,
    find_added_nodes old new = find_removed_nodes new old ∧
    (update_dom old new).diff.filterMap Diff.addedPayload =
      (update_dom new old).diff.filterMap Diff.removedPayload := by
  intro old new
  have h := added_rec_swap old.element_type new.element_type
  constructor
  · exact h
  · show List.filterMap Diff.addedPayload
        ((find_removed_nodes old new).map Diff.RemoveNode
          ++ (find_added_nodes old new).map Diff.AddNode) =
      List.filterMap Diff.removedPayload
        ((find_removed_nodes new old).map Diff.RemoveNode
          ++ (find_added_nodes new old).map Diff.AddNode)
    rw [List.filterMap_append, List.filterMap_append,
      List.filterMap_map, List.filterMap_map, List.filterMap_map, List.filterMap_map,
      show Diff.addedPayload ∘ Diff.RemoveNode = (fun _ => (none : Option VirtualNode)) from rfl,
      show Diff.addedPayload ∘ Diff.AddNode = some from rfl,
      show Diff.removedPayload ∘ Diff.RemoveNode = some from rfl,
      show Diff.removedPayload ∘ Diff.AddNode = (fun _ => (none : Option VirtualNode)) from rfl,
      List.filterMap_some, List.filterMap_some,
      filterMap_const_none, filterMap_const_none,
      List.nil_append, List.append_nil]
    exact h

/-- C10: the hand-written equality on `Diff` is false across variants and
coincides with structural payload equality within a variant. -/
theorem diff_eq_variant_semantics : ∀ x y : VirtualNode,
    Diff.rust_eq (.AddNode x) (.RemoveNode y) = false ∧
    Diff.rust_eq (.RemoveNode x) (.AddNode y) = false ∧
    (Diff.rust_eq (.AddNode x) (.AddNode y) = true ↔ x = y) ∧
    (Diff.rust_eq (.RemoveNode x) (.RemoveNode y) = true ↔ x = y) := by
  intro x y
  refine ⟨rfl, rfl, ?_, ?_⟩ <;> simp [Diff.rust_eq]
